import Mathlib

/-!
Verification of the `thermocouples_reference` package: the piecewise
polynomial-plus-Gaussian reference function and its inverse lookup
(`thermocouples_reference/function_types.py`) and the temperature unit
conversion tables (`thermocouples_reference/units.py`).

Modelling conventions:
* Python floats are idealised as rational numbers (`ℚ`): all claims under
  study are stated "exactly in real arithmetic", and every constant that
  appears in the sources (273.15, 491.67, 5/9, ...) is exactly
  representable in `ℚ`.
* `np.exp` is kept abstract: every evaluator takes a parameter
  `E : ℚ → ℚ` standing for the exponential function.  None of the claims
  depend on analytic properties of `exp`.
* The NaN produced under the `"nan"` out-of-range policy is modelled by
  `Option ℚ` (`none` = NaN); any comparison against `none` is false,
  matching IEEE NaN comparison semantics used in the residual checks.
* The SciPy root finders called by `inverse` are external library code;
  they are modelled as oracles (`newtonO : ℚ → Option ℚ` receiving the
  start guess, `brentqO : Except Bool ℚ` where `.error true` is the
  "f(a) and f(b) must have different signs" ValueError and `.error false`
  any other failure).  The theorems hold for every oracle behaviour.
* Python exceptions are modelled by `Except`.
-/

/-- One piece of the piecewise function: a tuple
`(minimum T, maximum T, polynomial coefs, exponential coefs)` of
`Polynomial_Gaussian_Piecewise_Function.table`.  The polynomial
coefficients are highest power first (the `np.polyval` order); `ec` is
`none` when the segment has no Gaussian term. -/
structure Seg where
  tmin : ℚ
  tmax : ℚ
  coefs : List ℚ
  ec : Option (ℚ × ℚ × ℚ)
deriving DecidableEq

/-- `np.polyval p x`: Horner evaluation, highest coefficient first. -/
def polyval (p : List ℚ) (x : ℚ) : ℚ :=
  p.foldl (fun acc c => acc * x + c) 0

/-- One formal differentiation of a highest-first coefficient list
(`np.polyder` with `m = 1`): coefficient of degree `k` is multiplied by
`k` and the constant term is dropped. -/
def polyder1 (p : List ℚ) : List ℚ :=
  p.dropLast.mapIdx (fun i c => c * ((p.length - 1 - i : ℕ) : ℚ))

/-- `np.polyder p m`: `m`-fold differentiation. -/
def polyder (p : List ℚ) : ℕ → List ℚ
  | 0 => p
  | m + 1 => polyder1 (polyder p m)

def defaultSeg : Seg := ⟨0, 0, [], none⟩

/-- Indexing into the table (0-based); total with a junk default, used
only at indices `< t.length`. -/
def nthSeg (t : List Seg) (i : ℕ) : Seg :=
  (t.get? i).getD defaultSeg

/-- `self.minT = self.table[0][0]`. -/
def minT : List Seg → ℚ
  | [] => 0
  | s :: _ => s.tmin

/-- `self.maxT = self.table[-1][1]`. -/
def maxT : List Seg → ℚ
  | [] => 0
  | [s] => s.tmax
  | _ :: s :: r => maxT (s :: r)

/-- The validation loop of `Polynomial_Gaussian_Piecewise_Function.__init__`
(lines 56-62): running through the table with accumulator `lastmax`,
require `tmin <= tmax` and `tmin == lastmax` for every piece. -/
def checkPieces : ℚ → List Seg → Bool
  | _, [] => true
  | lastmax, s :: r =>
      decide (s.tmin ≤ s.tmax) && decide (s.tmin = lastmax) && checkPieces s.tmax r

/-- Whether construction succeeds: `lastmax` starts at `table[0][0]`
(an empty table fails: `table[0]` itself raises). -/
def validTable : List Seg → Bool
  | [] => false
  | s :: r => checkPieces s.tmin (s :: r)

/-- The spec-side invariant (section "Data model" of the spec): at least
one segment, every segment's `minTemp <= maxTemp`, and each segment's
`minTemp` equal to the previous segment's `maxTemp`. -/
def specInvariant (t : List Seg) : Prop :=
  t ≠ [] ∧
  (∀ i, i < t.length → (nthSeg t i).tmin ≤ (nthSeg t i).tmax) ∧
  (∀ i, i + 1 < t.length → (nthSeg t (i + 1)).tmin = (nthSeg t i).tmax)

/-- Count of segments whose upper bound the input strictly exceeds
(the `selector += (T > tmax)` accumulation of `__call__`). -/
def selAux (t : List Seg) (T : ℚ) : ℕ :=
  t.countP (fun s => decide (s.tmax < T))

/-- The per-input segment selector of `__call__` (lines 113-116):
`selector = (T >= tmin)*1` followed by `selector += (T > tmax)` for each
piece.  0 = underrange, `i` = inside the `i`-th (1-based) range,
`N+1` = overrange. -/
def selector (t : List Seg) (T : ℚ) : ℕ :=
  (if minT t ≤ T then 1 else 0) + selAux t T

/-- Errors that `__call__` can raise (all are `ValueError` in Python). -/
inductive CallErr where
  /-- `ValueError("invalid out_of_range parameter", out_of_range)` -/
  | invalidPolicy (policy : String)
  /-- `ValueError("sorry, derivatives > 3 not supported for this type.")` -/
  | unsupportedDerivative
  /-- `ValueError(msg, u_temps, o_temps)`; either list is replaced by
  `None` when empty (lines 152-153). -/
  | outOfRange (u_temps o_temps : Option (List ℚ))
deriving DecidableEq

/-- The per-segment value: polynomial of the `derivative`-times
differentiated coefficients, plus (for `derivative <= 3`) the Gaussian
term `ec[0] * exp(ec[1] * (T - ec[2])**2)` or its closed-form
derivatives (lines 119-133).  The `derivative > 3` case is unreachable
here: `call` raises before using it. -/
def segVal (E : ℚ → ℚ) (s : Seg) (derivative : ℕ) (T : ℚ) : ℚ :=
  let emf := polyval (polyder s.coefs derivative) T
  match s.ec with
  | none => emf
  | some (a0, a1, a2) =>
      let dT := T - a2
      let gauss := a0 * E (a1 * dT ^ 2)
      if derivative = 0 then emf + gauss
      else if derivative = 1 then emf + 2 * a1 * gauss * dT
      else if derivative = 2 then emf + 2 * a1 * gauss * (2 * a1 * dT ^ 2 + 1)
      else if derivative = 3 then emf + 4 * a1 * a1 * gauss * dT * (2 * a1 * dT ^ 2 + 3)
      else emf

/-- `selector <= 0` (underrange) for one input. -/
def underB (t : List Seg) (T : ℚ) : Bool :=
  decide (selector t T = 0)

/-- `selector > len(self.table)` (overrange) for one input. -/
def overB (t : List Seg) (T : ℚ) : Bool :=
  decide (t.length < selector t T)

/-- `np.extract`-style: `None` when no input matched (lines 150-153). -/
def toOpt (l : List ℚ) : Option (List ℚ) :=
  if l = [] then none else some l

/-- `np.choose(selector, emf_choices)` for one input: under the `"nan"`
policy the underrange/overrange choices are NaN (lines 139-141),
otherwise they are duplicates of the first/last segment's values
(lines 142-144), i.e. the selector is clamped to `1..N`.  An empty
table is unreachable (construction rejects it). -/
def chooseOut (E : ℚ → ℚ) (t : List Seg) (derivative : ℕ) (policy : String) (T : ℚ) :
    Option ℚ :=
  let sel := selector t T
  if policy = "nan" ∧ (sel = 0 ∨ t.length < sel) then none
  else
    match t.get? (min (max sel 1) t.length - 1) with
    | some s => some (segVal E s derivative T)
    | none => none

/-- `Polynomial_Gaussian_Piecewise_Function.__call__` on a list of
inputs (numpy evaluates each element independently).  Order of failure
checks follows the source: the policy string is validated first
(lines 100-101); then the table loop raises on `derivative > 3` as soon
as a segment has a truthy `ec` (lines 121, 134-135); then under
`"raise"` the out-of-range check fires (lines 146-155); finally the
per-input choice is returned (line 157). -/
def callPGPF (E : ℚ → ℚ) (t : List Seg) (Ts : List ℚ) (derivative : ℕ)
    (out_of_range : String) : Except CallErr (List (Option ℚ)) :=
  if out_of_range ∉ (["raise", "nan", "extrapolate"] : List String) then
    .error (.invalidPolicy out_of_range)
  else if 3 < derivative ∧ t.any (fun s => s.ec.isSome) then
    .error .unsupportedDerivative
  else if out_of_range = "raise" ∧ Ts.any (fun T => underB t T || overB t T) then
    .error (.outOfRange (toOpt (Ts.filter (underB t))) (toOpt (Ts.filter (overB t))))
  else
    .ok (Ts.map (chooseOut E t derivative out_of_range))

/-- Scalar call: `self(T, derivative, out_of_range)`. -/
def call1 (E : ℚ → ℚ) (t : List Seg) (T : ℚ) (derivative : ℕ)
    (out_of_range : String) : Except CallErr (Option ℚ) :=
  (callPGPF E t [T] derivative out_of_range).map (fun l => l.headI)

instance {ε α : Type} [DecidableEq ε] [DecidableEq α] :
    DecidableEq (Except ε α) := fun x y =>
  match x, y with
  | .ok a, .ok b =>
      if h : a = b then .isTrue (by rw [h])
      else .isFalse (fun he => h (by cases he; rfl))
  | .error a, .error b =>
      if h : a = b then .isTrue (by rw [h])
      else .isFalse (fun he => h (by cases he; rfl))
  | .ok _, .error _ => .isFalse (fun he => Except.noConfusion he)
  | .error _, .ok _ => .isFalse (fun he => Except.noConfusion he)

/-- Errors out of `inverse` (all `ValueError` in Python):
`domain` is `ValueError("Voltage not within in allowed range.")`,
`convergence` is `ValueError("Did not converge within tolerance.")`,
`external` is any other exception re-raised from `brentq`. -/
inductive InvErr where
  | domain
  | convergence
  | external
deriving DecidableEq

/-- The stage-1 acceptance test (lines 210-212): evaluate `self(T)`
under the default `"raise"` policy and require `abs(self(T)-V) <= Vtol`;
any exception from the evaluation (out of range) counts as failure,
since the surrounding `except:` catches it. -/
def residOkRaise (E : ℚ → ℚ) (t : List Seg) (V Vtol T : ℚ) : Bool :=
  match call1 E t T 0 "raise" with
  | .ok (some x) => decide (|x - V| ≤ Vtol)
  | _ => false

/-- The stage-2 acceptance test (line 228):
`abs(self(T, out_of_range="nan") - V) <= Vtol`; a NaN value makes the
comparison false. -/
def residOkNan (E : ℚ → ℚ) (t : List Seg) (V Vtol T : ℚ) : Bool :=
  match call1 E t T 0 "nan" with
  | .ok (some x) => decide (|x - V| ≤ Vtol)
  | _ => false

/-- The `except:` block of `inverse` (lines 213-229): run `brentq` on
`[self.minT, self.maxT]`; translate its sign-ValueError into
"Voltage not within in allowed range."; accept a root only if the
`"nan"`-policy residual check passes. -/
def brentqStage (E : ℚ → ℚ) (t : List Seg) (brentqO : Except Bool ℚ)
    (V Vtol : ℚ) : Except InvErr ℚ :=
  match brentqO with
  | .error true => .error .domain
  | .error false => .error .external
  | .ok T => if residOkNan E t V Vtol T then .ok T else .error .convergence

/-- `Polynomial_Gaussian_Piecewise_Function.inverse` (lines 159-231).
`newtonO` abstracts `scipy.optimize.newton` seeded at the start value
(`none` = newton raised); `brentqO` abstracts
`scipy.optimize.brentq(fun0, self.minT, self.maxT)` (`.error true` = the
"f(a) and f(b) must have different signs" ValueError, `.error false` =
any other exception).  Stage 1 result is accepted only if `residOkRaise`
holds; any stage-1 problem falls through to `brentq`, whose result is
accepted only if `residOkNan` holds, else
"Did not converge within tolerance." is raised. -/
def inverse (E : ℚ → ℚ) (t : List Seg) (newtonO : ℚ → Option ℚ)
    (brentqO : Except Bool ℚ) (V : ℚ) (Tstart : Option ℚ) (Vtol : ℚ) :
    Except InvErr ℚ :=
  let T0 := Tstart.getD ((1 / 2) * (minT t + maxT t))
  match newtonO T0 with
  | none => brentqStage E t brentqO V Vtol
  | some T =>
      if residOkRaise E t V Vtol T then .ok T
      else brentqStage E t brentqO V Vtol

/-- First row of `Tunits_mat['C']['from'][u]` (units.py lines 43-48):
the affine map taking unit `u` to Celsius.  The source dict has exactly
the four keys; the catch-all is never consulted. -/
def Tunits_mat_from : String → ℚ × ℚ
  | "K" => (1, -27315 / 100)
  | "C" => (1, 0)
  | "R" => (5 / 9, -27315 / 100)
  | "F" => (5 / 9, -32 * (5 / 9))
  | _ => (1, 0)

/-- First row of `Tunits_mat['C']['to'][u]` (units.py lines 49-54):
the affine map taking Celsius to unit `u`. -/
def Tunits_mat_to : String → ℚ × ℚ
  | "K" => (1, 27315 / 100)
  | "C" => (1, 0)
  | "R" => (9 / 5, 49167 / 100)
  | "F" => (9 / 5, 32)
  | _ => (1, 0)

/-- Application of one conversion row: `value * multiplier + offset`. -/
def affineApply (p : ℚ × ℚ) (x : ℚ) : ℚ := x * p.1 + p.2

/-- NaN-propagating subtraction of two evaluated values. -/
def osub : Option ℚ → Option ℚ → Option ℚ
  | some a, some b => some (a - b)
  | _, _ => none

/-- `Thermocouple_Reference.emf_mVC` (lines 406-415): the Celsius
conversion lines are commented out in the source, so `T` and `Tref` are
used unconverted and a nonzero `derivative` returns `f_T` with no
multiplier. -/
def emf_mVC (E : ℚ → ℚ) (t : List Seg) (T Tref : ℚ) (derivative : ℕ)
    (out_of_range : String) : Except CallErr (Option ℚ) :=
  match call1 E t T derivative out_of_range with
  | .error e => .error e
  | .ok f_T =>
      if derivative ≠ 0 then .ok f_T
      else
        match call1 E t Tref derivative out_of_range with
        | .error e => .error e
        | .ok f_ref => .ok (osub f_T f_ref)

/-- `Thermocouple_Reference.emf_mVF` (lines 417-426). -/
def emf_mVF (E : ℚ → ℚ) (t : List Seg) (T Tref : ℚ) (derivative : ℕ)
    (out_of_range : String) : Except CallErr (Option ℚ) :=
  let p := Tunits_mat_from "F"
  match call1 E t (T * p.1 + p.2) derivative out_of_range with
  | .error e => .error e
  | .ok f_T =>
      if derivative ≠ 0 then .ok (f_T.map (fun x => x * p.1 ^ derivative))
      else
        match call1 E t (Tref * p.1 + p.2) derivative out_of_range with
        | .error e => .error e
        | .ok f_ref => .ok (osub f_T f_ref)

/-- `Thermocouple_Reference.emf_mVK` (lines 428-437). -/
def emf_mVK (E : ℚ → ℚ) (t : List Seg) (T Tref : ℚ) (derivative : ℕ)
    (out_of_range : String) : Except CallErr (Option ℚ) :=
  let p := Tunits_mat_from "K"
  match call1 E t (T * p.1 + p.2) derivative out_of_range with
  | .error e => .error e
  | .ok f_T =>
      if derivative ≠ 0 then .ok (f_T.map (fun x => x * p.1 ^ derivative))
      else
        match call1 E t (Tref * p.1 + p.2) derivative out_of_range with
        | .error e => .error e
        | .ok f_ref => .ok (osub f_T f_ref)

/-- `Thermocouple_Reference.emf_mVR` (lines 439-448). -/
def emf_mVR (E : ℚ → ℚ) (t : List Seg) (T Tref : ℚ) (derivative : ℕ)
    (out_of_range : String) : Except CallErr (Option ℚ) :=
  let p := Tunits_mat_from "R"
  match call1 E t (T * p.1 + p.2) derivative out_of_range with
  | .error e => .error e
  | .ok f_T =>
      if derivative ≠ 0 then .ok (f_T.map (fun x => x * p.1 ^ derivative))
      else
        match call1 E t (Tref * p.1 + p.2) derivative out_of_range with
        | .error e => .error e
        | .ok f_ref => .ok (osub f_T f_ref)

/-- Errors out of the facade inverse methods. -/
inductive FacErr where
  /-- an exception from evaluating `self.func(Tref)` -/
  | call (e : CallErr)
  /-- an exception from `self.func.inverse` -/
  | inv (e : InvErr)
  /-- Python `NameError`: a name is referenced but not bound -/
  | nameError
deriving DecidableEq

/-- `Thermocouple_Reference.inverse_CmV` (lines 451-461).  The Celsius
conversion lines 453-454 and 459-460 are commented out in the source,
yet line 456 still reads `if Tstart != None: Tstart = Tstart*mul + add`;
`mul` and `add` are unbound there, so a provided `Tstart` raises
`NameError` after `f_ref` is computed.  Under the `"raise"` policy the
evaluated value is always numeric; `.getD 0` is unreachable padding. -/
def inverse_CmV (E : ℚ → ℚ) (t : List Seg) (newtonO : ℚ → Option ℚ)
    (brentqO : Except Bool ℚ) (emf Tref : ℚ) (Tstart : Option ℚ) (Vtol : ℚ) :
    Except FacErr ℚ :=
  match call1 E t Tref 0 "raise" with
  | .error e => .error (.call e)
  | .ok f_ref =>
      match Tstart with
      | some _ => .error .nameError
      | none =>
          match inverse E t newtonO brentqO (emf + f_ref.getD 0) none Vtol with
          | .error e => .error (.inv e)
          | .ok T => .ok T

/-- `Thermocouple_Reference.inverse_FmV` (lines 463-473): `Tref` and a
provided `Tstart` are converted to Celsius, the underlying `inverse` is
called at `emf + f_ref`, and the result is converted back to
Fahrenheit. -/
def inverse_FmV (E : ℚ → ℚ) (t : List Seg) (newtonO : ℚ → Option ℚ)
    (brentqO : Except Bool ℚ) (emf Tref : ℚ) (Tstart : Option ℚ) (Vtol : ℚ) :
    Except FacErr ℚ :=
  let p := Tunits_mat_from "F"
  match call1 E t (Tref * p.1 + p.2) 0 "raise" with
  | .error e => .error (.call e)
  | .ok f_ref =>
      let Tstart' := Tstart.map (fun g => g * p.1 + p.2)
      match inverse E t newtonO brentqO (emf + f_ref.getD 0) Tstart' Vtol with
      | .error e => .error (.inv e)
      | .ok T =>
          let q := Tunits_mat_to "F"
          .ok (T * q.1 + q.2)

/-- `Thermocouple_Reference.inverse_KmV` (lines 475-485). -/
def inverse_KmV (E : ℚ → ℚ) (t : List Seg) (newtonO : ℚ → Option ℚ)
    (brentqO : Except Bool ℚ) (emf Tref : ℚ) (Tstart : Option ℚ) (Vtol : ℚ) :
    Except FacErr ℚ :=
  let p := Tunits_mat_from "K"
  match call1 E t (Tref * p.1 + p.2) 0 "raise" with
  | .error e => .error (.call e)
  | .ok f_ref =>
      let Tstart' := Tstart.map (fun g => g * p.1 + p.2)
      match inverse E t newtonO brentqO (emf + f_ref.getD 0) Tstart' Vtol with
      | .error e => .error (.inv e)
      | .ok T =>
          let q := Tunits_mat_to "K"
          .ok (T * q.1 + q.2)

/-- `Thermocouple_Reference.inverse_RmV` (lines 487-497). -/
def inverse_RmV (E : ℚ → ℚ) (t : List Seg) (newtonO : ℚ → Option ℚ)
    (brentqO : Except Bool ℚ) (emf Tref : ℚ) (Tstart : Option ℚ) (Vtol : ℚ) :
    Except FacErr ℚ :=
  let p := Tunits_mat_from "R"
  match call1 E t (Tref * p.1 + p.2) 0 "raise" with
  | .error e => .error (.call e)
  | .ok f_ref =>
      let Tstart' := Tstart.map (fun g => g * p.1 + p.2)
      match inverse E t newtonO brentqO (emf + f_ref.getD 0) Tstart' Vtol with
      | .error e => .error (.inv e)
      | .ok T =>
          let q := Tunits_mat_to "R"
          .ok (T * q.1 + q.2)

/-! ### Concrete instances used for witnesses and counterexamples -/

/-- The identity as a stand-in exponential for tables without Gaussian
terms (where `E` is never consulted). -/
def idE : ℚ → ℚ := fun x => x

/-- A one-segment table, the identity polynomial on `[0, 10]`, no
Gaussian term. -/
def tbl1 : List Seg := [⟨0, 10, [1, 0], none⟩]

/-- A two-segment contiguous table. -/
def tbl2 : List Seg := [⟨0, 1, [1, 0], none⟩, ⟨1, 2, [2, 0], none⟩]

/-- A one-segment table carrying a Gaussian term. -/
def tblEc : List Seg := [⟨0, 10, [1, 0], some (1, -1, 5)⟩]

/-- A newton oracle answering only when seeded at 5. -/
def nO1 : ℚ → Option ℚ := fun g => if g = 5 then some 3 else none

/-! ### Helper lemmas about the table check and the segment selector -/

lemma nthSeg_zero (s : Seg) (r : List Seg) : nthSeg (s :: r) 0 = s := rfl

lemma nthSeg_succ (s : Seg) (r : List Seg) (i : ℕ) :
    nthSeg (s :: r) (i + 1) = nthSeg r i := rfl

lemma maxT_cons (s s2 : Seg) (r : List Seg) :
    maxT (s :: s2 :: r) = maxT (s2 :: r) := rfl

lemma checkPieces_cons {m : ℚ} {s : Seg} {r : List Seg}
    (h : checkPieces m (s :: r) = true) :
    s.tmin ≤ s.tmax ∧ s.tmin = m ∧ checkPieces s.tmax r = true := by
  simpa [checkPieces, and_assoc] using h

/-- Along a valid chain starting at `m`, every segment has
`m ≤ tmin ≤ tmax`. -/
lemma checkPieces_nth {t : List Seg} {m : ℚ}
    (h : checkPieces m t = true) :
    ∀ i, i < t.length → m ≤ (nthSeg t i).tmin ∧ (nthSeg t i).tmin ≤ (nthSeg t i).tmax := by
  induction t generalizing m with
  | nil => intro i hi; simp at hi
  | cons s r ih =>
      obtain ⟨h1, h2, h3⟩ := checkPieces_cons h
      intro i hi
      cases i with
      | zero => exact ⟨le_of_eq h2.symm, h1⟩
      | succ j =>
          have hj : j < r.length := by simpa using hi
          have := ih h3 j hj
          exact ⟨le_trans (h2 ▸ h1) this.1, this.2⟩

lemma checkPieces_le_maxT {t : List Seg} {m : ℚ}
    (h : checkPieces m t = true) (hne : t ≠ []) : m ≤ maxT t := by
  induction t generalizing m with
  | nil => exact absurd rfl hne
  | cons s r ih =>
      obtain ⟨h1, h2, h3⟩ := checkPieces_cons h
      cases r with
      | nil => simpa [maxT] using h2 ▸ h1
      | cons s2 r2 =>
          have := ih h3 (by simp)
          calc m = s.tmin := h2.symm
            _ ≤ s.tmax := h1
            _ ≤ maxT (s2 :: r2) := this
            _ = maxT (s :: s2 :: r2) := rfl

lemma selAux_nil (T : ℚ) : selAux [] T = 0 := rfl

lemma selAux_cons (s : Seg) (r : List Seg) (T : ℚ) :
    selAux (s :: r) T = (if s.tmax < T then 1 else 0) + selAux r T := by
  simp only [selAux, List.countP_cons, decide_eq_true_eq]
  by_cases h : s.tmax < T
  · rw [if_pos h]; omega
  · rw [if_neg h]; omega

lemma selAux_le (t : List Seg) (T : ℚ) : selAux t T ≤ t.length :=
  List.countP_le_length _

/-- The first segment of a valid chain starts exactly at the chain
start. -/
lemma checkPieces_head_tmin {t : List Seg} {m : ℚ}
    (h : checkPieces m t = true) (hne : t ≠ []) : (nthSeg t 0).tmin = m := by
  cases t with
  | nil => exact absurd rfl hne
  | cons s r => exact (checkPieces_cons h).2.1

/-- If `T` never exceeds the chain start, no upper bound is exceeded. -/
lemma selAux_eq_zero_of_le {t : List Seg} {m T : ℚ}
    (h : checkPieces m t = true) (hT : T ≤ m) : selAux t T = 0 := by
  induction t generalizing m with
  | nil => rfl
  | cons s r ih =>
      obtain ⟨h1, h2, h3⟩ := checkPieces_cons h
      rw [selAux_cons]
      have hs : ¬ s.tmax < T := not_lt.2 (le_trans hT (h2 ▸ h1))
      rw [if_neg hs, ih h3 (le_trans hT (h2 ▸ h1))]

/-- Characterisation of the exceeded-bound count at indices inside the
table: it equals `i` exactly when `T` does not exceed the `i`-th upper
bound but does strictly exceed the `i`-th lower bound (no condition on
the lower bound at `i = 0`). -/
lemma selAux_eq_iff {t : List Seg} {m T : ℚ}
    (h : checkPieces m t = true) :
    ∀ i, i < t.length →
      (selAux t T = i ↔ (T ≤ (nthSeg t i).tmax ∧ (i = 0 ∨ (nthSeg t i).tmin < T))) := by
  induction t generalizing m with
  | nil => intro i hi; simp at hi
  | cons s r ih =>
      obtain ⟨h1, h2, h3⟩ := checkPieces_cons h
      intro i hi
      rw [selAux_cons]
      by_cases hs : s.tmax < T
      · rw [if_pos hs]
        cases i with
        | zero =>
            rw [nthSeg_zero]
            constructor
            · intro he; omega
            · rintro ⟨hle, -⟩; exact absurd hs (not_lt.2 hle)
        | succ j =>
            have hj : j < r.length := by simpa using hi
            have hiff := ih h3 j hj
            rw [nthSeg_succ]
            constructor
            · intro he
              have hje : selAux r T = j := by omega
              have hr := hiff.1 hje
              refine ⟨hr.1, Or.inr ?_⟩
              rcases hr.2 with hjz | hlt
              · subst hjz
                rw [checkPieces_head_tmin h3 (by rintro rfl; simp at hj)]
                exact hs
              · exact hlt
            · rintro ⟨hle, hor⟩
              have hje : selAux r T = j := by
                apply hiff.2
                refine ⟨hle, ?_⟩
                cases j with
                | zero => exact Or.inl rfl
                | succ k =>
                    rcases hor with hc | hlt
                    · exact absurd hc (by omega)
                    · exact Or.inr hlt
              omega
      · rw [if_neg hs]
        have hT : T ≤ s.tmax := not_lt.1 hs
        have hz : selAux r T = 0 := selAux_eq_zero_of_le h3 hT
        rw [hz]
        cases i with
        | zero =>
            rw [nthSeg_zero]
            constructor
            · intro _; exact ⟨hT, Or.inl rfl⟩
            · intro _; rfl
        | succ j =>
            have hj : j < r.length := by simpa using hi
            rw [nthSeg_succ]
            constructor
            · intro he; omega
            · rintro ⟨-, hor⟩
              rcases hor with hc | hlt
              · exact absurd hc (Nat.succ_ne_zero j)
              · have hmin := (checkPieces_nth h3 j hj).1
                exact absurd (lt_of_le_of_lt (le_trans hT hmin) hlt) (lt_irrefl T)

/-- The count saturates at the table length exactly when `T` strictly
exceeds the last upper bound. -/
lemma selAux_eq_length_iff {t : List Seg} {m T : ℚ}
    (h : checkPieces m t = true) (hne : t ≠ []) :
    (selAux t T = t.length ↔ maxT t < T) := by
  induction t generalizing m with
  | nil => exact absurd rfl hne
  | cons s r ih =>
      obtain ⟨h1, h2, h3⟩ := checkPieces_cons h
      rw [selAux_cons]
      cases r with
      | nil =>
          by_cases hs : s.tmax < T
          · simp [selAux_nil, maxT, hs]
          · simp [selAux_nil, maxT, hs]
      | cons s2 r2 =>
          have hiff := ih h3 (by simp)
          rw [← maxT_cons s s2 r2] at hiff
          by_cases hs : s.tmax < T
          · rw [if_pos hs]
            constructor
            · intro he
              apply hiff.1
              simp only [List.length_cons] at he ⊢
              omega
            · intro hm
              have := hiff.2 hm
              simp only [List.length_cons] at this ⊢
              omega
          · rw [if_neg hs]
            have hT : T ≤ s.tmax := not_lt.1 hs
            have hz : selAux (s2 :: r2) T = 0 := selAux_eq_zero_of_le h3 hT
            have hm : s.tmax ≤ maxT (s :: s2 :: r2) := by
              rw [maxT_cons]; exact checkPieces_le_maxT h3 (by simp)
            rw [hz]
            constructor
            · intro he
              simp only [List.length_cons] at he
              omega
            · intro hlt
              exact absurd (lt_of_le_of_lt (le_trans hT hm) hlt) (lt_irrefl T)

lemma validTable_ne_nil {t : List Seg} (h : validTable t = true) : t ≠ [] := by
  cases t with
  | nil => simp [validTable] at h
  | cons s r => simp

lemma validTable_checkPieces {t : List Seg} (h : validTable t = true) :
    checkPieces (minT t) t = true := by
  cases t with
  | nil => simp [validTable] at h
  | cons s r => simpa [minT] using h

lemma minT_le_maxT {t : List Seg} (hv : validTable t = true) : minT t ≤ maxT t :=
  checkPieces_le_maxT (validTable_checkPieces hv) (validTable_ne_nil hv)

lemma nthSeg_get {t : List Seg} {i : ℕ} (hi : i < t.length) :
    t.get? i = some (nthSeg t i) := by
  unfold nthSeg
  rw [List.get?_eq_get hi]
  rfl

lemma selector_le (t : List Seg) (T : ℚ) : selector t T ≤ t.length + 1 := by
  unfold selector
  have := selAux_le t T
  split <;> omega

/-- Selector 0 exactly for inputs strictly below the first minimum. -/
lemma selector_eq_zero_iff {t : List Seg} (hv : validTable t = true) (T : ℚ) :
    selector t T = 0 ↔ T < minT t := by
  unfold selector
  by_cases h : minT t ≤ T
  · rw [if_pos h]
    constructor
    · intro he; omega
    · intro hlt; exact absurd hlt (not_lt.2 h)
  · rw [if_neg h]
    have hz := selAux_eq_zero_of_le (validTable_checkPieces hv) (le_of_lt (not_le.1 h))
    rw [hz]
    exact ⟨fun _ => not_le.1 h, fun _ => rfl⟩

/-- Selector `N+1` exactly for inputs strictly above the last maximum. -/
lemma selector_eq_top_iff {t : List Seg} (hv : validTable t = true) (T : ℚ) :
    selector t T = t.length + 1 ↔ maxT t < T := by
  unfold selector
  have hcp := validTable_checkPieces hv
  have hne := validTable_ne_nil hv
  have hlen := selAux_le t T
  by_cases h : minT t ≤ T
  · rw [if_pos h]
    constructor
    · intro he; exact (selAux_eq_length_iff hcp hne).1 (by omega)
    · intro hm; have := (selAux_eq_length_iff hcp hne).2 hm; omega
  · rw [if_neg h]
    have hz := selAux_eq_zero_of_le hcp (le_of_lt (not_le.1 h))
    rw [hz]
    constructor
    · intro he; omega
    · intro hm
      exact absurd (lt_trans (not_le.1 h) (lt_of_le_of_lt (minT_le_maxT hv) hm))
        (lt_irrefl T)

/-- Selector `j+1` (1-based segment `j+1`) exactly for inputs inside
segment `j`, boundary inputs being attributed to the lower adjoining
segment: at `j ≥ 1` the segment's own minimum must be strictly
exceeded. -/
lemma selector_succ_iff {t : List Seg} (hv : validTable t = true) (T : ℚ)
    (j : ℕ) (hj : j < t.length) :
    selector t T = j + 1 ↔
      ((nthSeg t j).tmin ≤ T ∧ T ≤ (nthSeg t j).tmax ∧
        (1 ≤ j → (nthSeg t j).tmin < T)) := by
  have hcp := validTable_checkPieces hv
  unfold selector
  by_cases h : minT t ≤ T
  · rw [if_pos h]
    have hiff := @selAux_eq_iff t (minT t) T hcp j hj
    constructor
    · intro he
      have hje : selAux t T = j := by omega
      have hr := hiff.1 hje
      refine ⟨?_, hr.1, ?_⟩
      · rcases hr.2 with hz | hlt
        · subst hz
          rw [checkPieces_head_tmin hcp (validTable_ne_nil hv)]
          exact h
        · exact le_of_lt hlt
      · intro h1
        rcases hr.2 with hz | hlt
        · omega
        · exact hlt
    · rintro ⟨hmin, hmax, hstrict⟩
      have hje : selAux t T = j := by
        apply hiff.2
        refine ⟨hmax, ?_⟩
        cases j with
        | zero => exact Or.inl rfl
        | succ k => exact Or.inr (hstrict (by omega))
      omega
  · rw [if_neg h]
    have hz := selAux_eq_zero_of_le hcp (le_of_lt (not_le.1 h))
    rw [hz]
    constructor
    · intro he; omega
    · rintro ⟨hmin, -, -⟩
      have hminT := (checkPieces_nth hcp j hj).1
      exact absurd (lt_of_lt_of_le (not_le.1 h) (le_trans hminT hmin)) (lt_irrefl T)

lemma selector_bounds {t : List Seg} (hv : validTable t = true) {T : ℚ}
    (h1 : minT t ≤ T) (h2 : T ≤ maxT t) :
    1 ≤ selector t T ∧ selector t T ≤ t.length := by
  have h0 : selector t T ≠ 0 :=
    fun he => absurd ((selector_eq_zero_iff hv T).1 he) (not_lt.2 h1)
  have hle := selector_le t T
  have htop : selector t T ≠ t.length + 1 :=
    fun he => absurd ((selector_eq_top_iff hv T).1 he) (not_lt.2 h2)
  omega

/-- For an in-range input the chosen output is the selected segment's
value, whatever the policy. -/
lemma chooseOut_inRange {t : List Seg} (hv : validTable t = true)
    (E : ℚ → ℚ) (d : ℕ) (policy : String) {T : ℚ}
    (h1 : minT t ≤ T) (h2 : T ≤ maxT t) :
    chooseOut E t d policy T =
      some (segVal E (nthSeg t (selector t T - 1)) d T) := by
  obtain ⟨hb1, hb2⟩ := selector_bounds hv h1 h2
  unfold chooseOut
  rw [if_neg (by rintro ⟨-, hc | hc⟩ <;> omega)]
  have hidx : min (max (selector t T) 1) t.length - 1 = selector t T - 1 := by
    omega
  rw [hidx, nthSeg_get (by omega)]

/-- When all three failure checks pass, `__call__` returns the per-input
choices. -/
lemma callPGPF_ok {E : ℚ → ℚ} {t : List Seg} {Ts : List ℚ} {d : ℕ}
    {policy : String}
    (hpol : policy ∈ (["raise", "nan", "extrapolate"] : List String))
    (hg : ¬(3 < d ∧ t.any (fun s => s.ec.isSome) = true))
    (hnr : ¬(policy = "raise" ∧ Ts.any (fun T => underB t T || overB t T) = true)) :
    callPGPF E t Ts d policy = .ok (Ts.map (chooseOut E t d policy)) := by
  unfold callPGPF
  rw [if_neg (not_not_intro hpol), if_neg hg, if_neg hnr]

/-- Under `"raise"` with every input in range, `__call__` succeeds and
returns each input's selected-segment value. -/
lemma callPGPF_raise_inRange {E : ℚ → ℚ} {t : List Seg} {Ts : List ℚ} {d : ℕ}
    (hv : validTable t = true)
    (hg : ¬(3 < d ∧ t.any (fun s => s.ec.isSome) = true))
    (hin : ∀ T ∈ Ts, minT t ≤ T ∧ T ≤ maxT t) :
    callPGPF E t Ts d "raise" =
      .ok (Ts.map (fun T => some (segVal E (nthSeg t (selector t T - 1)) d T))) := by
  have hnr : ¬(("raise" : String) = "raise" ∧
      Ts.any (fun T => underB t T || overB t T) = true) := by
    rintro ⟨-, hany⟩
    rw [List.any_eq_true] at hany
    obtain ⟨T, hT, hor⟩ := hany
    obtain ⟨hb1, hb2⟩ := selector_bounds hv (hin T hT).1 (hin T hT).2
    rcases Bool.or_eq_true_iff.1 hor with hu | ho
    · exact absurd (of_decide_eq_true hu) (by omega)
    · exact absurd (of_decide_eq_true ho) (by omega)
  rw [callPGPF_ok (by simp) hg hnr]
  congr 1
  apply List.map_congr_left
  intro T hT
  exact chooseOut_inRange hv E d "raise" (hin T hT).1 (hin T hT).2

/-- Scalar version: in-range `"raise"` evaluation. -/
lemma call1_raise_inRange {E : ℚ → ℚ} {t : List Seg} {T : ℚ} {d : ℕ}
    (hv : validTable t = true)
    (hg : ¬(3 < d ∧ t.any (fun s => s.ec.isSome) = true))
    (h1 : minT t ≤ T) (h2 : T ≤ maxT t) :
    call1 E t T d "raise" =
      .ok (some (segVal E (nthSeg t (selector t T - 1)) d T)) := by
  unfold call1
  rw [callPGPF_raise_inRange hv hg (by rintro x hx; rw [List.mem_singleton] at hx; exact hx ▸ ⟨h1, h2⟩)]
  rfl

/-- A successful `"raise"` evaluation yields the same value under the
`"nan"` policy. -/
lemma call1_raise_to_nan {E : ℚ → ℚ} {t : List Seg} {T : ℚ} {d : ℕ}
    {o : Option ℚ} (h : call1 E t T d "raise" = .ok o) :
    call1 E t T d "nan" = .ok o := by
  unfold call1 callPGPF at h ⊢
  rw [if_neg (by decide)] at h
  rw [if_neg (by decide)]
  by_cases hg : 3 < d ∧ t.any (fun s => s.ec.isSome) = true
  · rw [if_pos hg] at h
    simp [Except.map] at h
  · rw [if_neg hg] at h
    rw [if_neg hg]
    by_cases hr : ("raise" : String) = "raise" ∧
        [T].any (fun x => underB t x || overB t x) = true
    · rw [if_pos hr] at h
      simp [Except.map] at h
    · rw [if_neg hr] at h
      rw [if_neg (by rintro ⟨hc, -⟩; exact absurd hc (by decide))]
      have hany : [T].any (fun x => underB t x || overB t x) = false := by
        rcases Bool.eq_false_or_eq_true ([T].any (fun x => underB t x || overB t x)) with ht | hf
        · exact absurd ⟨rfl, ht⟩ hr
        · exact hf
      have hub : underB t T = false ∧ overB t T = false := by
        simpa using hany
      have hco : chooseOut E t d "nan" T = chooseOut E t d "raise" T := by
        unfold chooseOut
        have h0 : ¬ selector t T = 0 := by simpa [underB] using hub.1
        have hl : ¬ t.length < selector t T := by simpa [overB] using hub.2
        rw [if_neg (by rintro ⟨-, hc | hc⟩ <;> [exact h0 hc; exact hl hc]),
          if_neg (by rintro ⟨hc, -⟩; exact absurd hc (by decide))]
      rw [← h]
      simp [Except.map, hco]

/-- A passing stage-1 residual check means the `"raise"` evaluation
succeeded with a numeric value within tolerance. -/
lemma residOkRaise_spec {E : ℚ → ℚ} {t : List Seg} {V Vtol T : ℚ}
    (h : residOkRaise E t V Vtol T = true) :
    ∃ x, call1 E t T 0 "raise" = .ok (some x) ∧ |x - V| ≤ Vtol := by
  unfold residOkRaise at h
  cases he : call1 E t T 0 "raise" with
  | error e => rw [he] at h; simp at h
  | ok o =>
      cases o with
      | none => rw [he] at h; simp at h
      | some x =>
          rw [he] at h
          simp only [decide_eq_true_eq] at h
          exact ⟨x, rfl, h⟩

/-- A passing stage-2 residual check means the `"nan"` evaluation
yielded a numeric value within tolerance. -/
lemma residOkNan_spec {E : ℚ → ℚ} {t : List Seg} {V Vtol T : ℚ}
    (h : residOkNan E t V Vtol T = true) :
    ∃ x, call1 E t T 0 "nan" = .ok (some x) ∧ |x - V| ≤ Vtol := by
  unfold residOkNan at h
  cases he : call1 E t T 0 "nan" with
  | error e => rw [he] at h; simp at h
  | ok o =>
      cases o with
      | none => rw [he] at h; simp at h
      | some x =>
          rw [he] at h
          simp only [decide_eq_true_eq] at h
          exact ⟨x, rfl, h⟩

/-- `inverse` either accepts the newton result (with a passing stage-1
check) or returns whatever the brentq stage returns. -/
lemma inverse_cases (E : ℚ → ℚ) (t : List Seg) (newtonO : ℚ → Option ℚ)
    (brentqO : Except Bool ℚ) (V : ℚ) (Tstart : Option ℚ) (Vtol : ℚ) :
    (∃ T, inverse E t newtonO brentqO V Tstart Vtol = .ok T ∧
        residOkRaise E t V Vtol T = true) ∨
    inverse E t newtonO brentqO V Tstart Vtol =
      brentqStage E t brentqO V Vtol := by
  unfold inverse
  dsimp only
  cases newtonO (Tstart.getD ((1 / 2) * (minT t + maxT t))) with
  | none => exact Or.inr rfl
  | some T =>
      dsimp only
      by_cases hr : residOkRaise E t V Vtol T = true
      · rw [if_pos hr]; exact Or.inl ⟨T, rfl, hr⟩
      · rw [if_neg hr]; exact Or.inr rfl

lemma brentqStage_ok {E : ℚ → ℚ} {t : List Seg} {brentqO : Except Bool ℚ}
    {V Vtol T : ℚ} (h : brentqStage E t brentqO V Vtol = .ok T) :
    brentqO = .ok T ∧ residOkNan E t V Vtol T = true := by
  unfold brentqStage at h
  cases brentqO with
  | error b => cases b <;> simp at h
  | ok T2 =>
      dsimp only at h
      by_cases hr : residOkNan E t V Vtol T2 = true
      · rw [if_pos hr] at h
        cases h
        exact ⟨rfl, hr⟩
      · rw [if_neg hr] at h
        simp at h

lemma brentqStage_domain {E : ℚ → ℚ} {t : List Seg} {brentqO : Except Bool ℚ}
    {V Vtol : ℚ} (h : brentqStage E t brentqO V Vtol = .error .domain) :
    brentqO = .error true := by
  unfold brentqStage at h
  cases brentqO with
  | error b => cases b <;> simp_all
  | ok T2 =>
      dsimp only at h
      by_cases hr : residOkNan E t V Vtol T2 = true
      · rw [if_pos hr] at h; simp at h
      · rw [if_neg hr] at h; simp at h

lemma brentqStage_convergence {E : ℚ → ℚ} {t : List Seg}
    {brentqO : Except Bool ℚ} {V Vtol : ℚ}
    (h : brentqStage E t brentqO V Vtol = .error .convergence) :
    ∃ T, brentqO = .ok T ∧ residOkNan E t V Vtol T = false := by
  unfold brentqStage at h
  cases brentqO with
  | error b => cases b <;> simp_all
  | ok T2 =>
      dsimp only at h
      by_cases hr : residOkNan E t V Vtol T2 = true
      · rw [if_pos hr] at h; simp at h
      · rw [if_neg hr] at h
        exact ⟨T2, rfl, Bool.eq_false_iff.2 hr⟩

/-- Full characterisation of the construction-time table check. -/
lemma checkPieces_iff (m : ℚ) (t : List Seg) :
    checkPieces m t = true ↔
      ((∀ i, i < t.length → (nthSeg t i).tmin ≤ (nthSeg t i).tmax) ∧
       (∀ i, i + 1 < t.length → (nthSeg t (i + 1)).tmin = (nthSeg t i).tmax) ∧
       (t = [] ∨ (nthSeg t 0).tmin = m)) := by
  induction t generalizing m with
  | nil => simp [checkPieces]
  | cons s r ih =>
      constructor
      · intro h
        obtain ⟨h1, h2, h3⟩ := checkPieces_cons h
        obtain ⟨ha, hb, hc⟩ := (ih s.tmax).1 h3
        refine ⟨?_, ?_, Or.inr (by rw [nthSeg_zero]; exact h2)⟩
        · intro i hi
          cases i with
          | zero => simpa [nthSeg_zero] using h1
          | succ j => exact ha j (by simpa using hi)
        · intro i hi
          cases i with
          | zero =>
              rw [nthSeg_succ, nthSeg_zero]
              rcases hc with hnil | hh
              · subst hnil; simp at hi
              · exact hh
          | succ j => exact hb j (by simpa using hi)
      · rintro ⟨hA, hB, hC⟩
        have hC2 : s.tmin = m := by
          rcases hC with hnil | hh
          · exact absurd hnil (by simp)
          · simpa [nthSeg_zero] using hh
        have h1 : s.tmin ≤ s.tmax := by simpa [nthSeg_zero] using hA 0 (by simp)
        have h3 : checkPieces s.tmax r = true := by
          apply (ih s.tmax).2
          refine ⟨?_, ?_, ?_⟩
          · intro i hi
            have := hA (i + 1) (by simpa using hi)
            rwa [nthSeg_succ] at this
          · intro i hi
            have := hB (i + 1) (by simpa using hi)
            rwa [nthSeg_succ, nthSeg_succ] at this
          · cases r with
            | nil => exact Or.inl rfl
            | cons s2 r2 =>
                refine Or.inr ?_
                have := hB 0 (by simp)
                simpa [nthSeg_succ, nthSeg_zero] using this
        subst hC2
        simp [checkPieces, h1, h3]

/-! ### The claims -/

/-- Claim C8: construction of a piecewise reference function succeeds
exactly when the segment list is non-empty, every segment has
`tmin <= tmax`, and each segment's `tmin` equals the previous segment's
`tmax`; the stored table then satisfies these invariants. -/
theorem claim_C8 (t : List Seg) : validTable t = true ↔ specInvariant t := by
  cases t with
  | nil => simp [validTable, specInvariant]
  | cons s r =>
      unfold validTable
      rw [checkPieces_iff]
      unfold specInvariant
      constructor
      · rintro ⟨hA, hB, -⟩
        exact ⟨by simp, hA, hB⟩
      · rintro ⟨-, hA, hB⟩
        exact ⟨hA, hB, Or.inr rfl⟩

/-- Claim C10: an out-of-range policy string other than `"raise"`,
`"nan"`, `"extrapolate"` makes `__call__` fail immediately with the
invalid-parameter `ValueError`, for every input list and derivative
order, before any segment evaluation. -/
theorem claim_C10 (E : ℚ → ℚ) (t : List Seg) (Ts : List ℚ) (d : ℕ)
    (p : String) (h : p ∉ (["raise", "nan", "extrapolate"] : List String)) :
    callPGPF E t Ts d p = .error (.invalidPolicy p) := by
  unfold callPGPF
  rw [if_pos h]

/-- Witness for C10 at the concrete policy string "bogus". -/
theorem claim_C10_witness :
    callPGPF idE tbl1 [99] 7 "bogus" = .error (.invalidPolicy "bogus") :=
  claim_C10 idE tbl1 [99] 7 "bogus" (by decide)

/-- Counterexample to claim C3 as stated: on a table with no Gaussian
term in any segment (here the identity polynomial on `[0, 10]`),
evaluation at the in-range temperature 5 with derivative order 4
succeeds (returning the zero fourth derivative) instead of failing with
the unsupported-derivative error. -/
theorem claim_C3_counterexample :
    callPGPF idE tbl1 [5] 4 "raise" = .ok [some 0] := by
  norm_num [callPGPF, underB, overB, chooseOut, selector, selAux, minT,
    tbl1, nthSeg, segVal, polyval, polyder, polyder1, idE]

/-- Claim C3 (amended): for a valid policy and derivative order above 3,
`__call__` fails with the unsupported-derivative error exactly when some
segment of the table carries a Gaussian term; tables without any
Gaussian term do not raise it. -/
theorem claim_C3 (E : ℚ → ℚ) (t : List Seg) (Ts : List ℚ) (d : ℕ)
    (policy : String)
    (hpol : policy ∈ (["raise", "nan", "extrapolate"] : List String))
    (hd : 3 < d) :
    callPGPF E t Ts d policy = .error .unsupportedDerivative ↔
      t.any (fun s => s.ec.isSome) = true := by
  unfold callPGPF
  rw [if_neg (not_not_intro hpol)]
  by_cases hany : t.any (fun s => s.ec.isSome) = true
  · rw [if_pos ⟨hd, hany⟩]
    simp [hany]
  · rw [if_neg (by rintro ⟨-, hc⟩; exact hany hc)]
    constructor
    · intro h
      split at h <;> simp_all
    · intro h
      exact absurd h hany

/-- Witness for C3 (amended) on a table with a Gaussian segment. -/
theorem claim_C3_witness :
    callPGPF idE tblEc [5] 4 "raise" = .error .unsupportedDerivative :=
  (claim_C3 idE tblEc [5] 4 "raise" (by decide) (by decide)).2 (by decide)

/-- Claim C9: for each of the four temperature units the stored
"to" and "from" affine maps of `Tunits_mat` are mutually inverse in
exact arithmetic. -/
theorem claim_C9 (x : ℚ) (u : String)
    (hu : u ∈ (["C", "F", "K", "R"] : List String)) :
    affineApply (Tunits_mat_from u) (affineApply (Tunits_mat_to u) x) = x ∧
    affineApply (Tunits_mat_to u) (affineApply (Tunits_mat_from u) x) = x := by
  fin_cases hu <;>
    constructor <;>
    · simp only [affineApply, Tunits_mat_from, Tunits_mat_to]
      ring_nf

/-- Witness for C9 at `x = 7`, unit Fahrenheit. -/
theorem claim_C9_witness :
    affineApply (Tunits_mat_from "F") (affineApply (Tunits_mat_to "F") 7) = 7 ∧
    affineApply (Tunits_mat_to "F") (affineApply (Tunits_mat_from "F") 7) = 7 :=
  claim_C9 7 "F" (by decide)

/-- Claim C2: for a valid table, the per-input segment selector is 0
exactly below the first minimum, `N+1` exactly above the last maximum,
and `j+1` exactly on the (1-based) segment `j+1`, with inputs on an
interior boundary attributed to the lower adjoining segment; the value
returned for an in-range input is the selected segment's
polynomial-plus-Gaussian evaluation. -/
theorem claim_C2 (E : ℚ → ℚ) (t : List Seg) (T : ℚ)
    (hv : validTable t = true) :
    (selector t T = 0 ↔ T < minT t) ∧
    (selector t T = t.length + 1 ↔ maxT t < T) ∧
    (∀ j, j < t.length →
      (selector t T = j + 1 ↔
        ((nthSeg t j).tmin ≤ T ∧ T ≤ (nthSeg t j).tmax ∧
          (1 ≤ j → (nthSeg t j).tmin < T)))) ∧
    (minT t ≤ T → T ≤ maxT t →
      call1 E t T 0 "raise" =
        .ok (some (segVal E (nthSeg t (selector t T - 1)) 0 T))) := by
  refine ⟨selector_eq_zero_iff hv T, selector_eq_top_iff hv T,
    fun j hj => selector_succ_iff hv T j hj, fun h1 h2 => ?_⟩
  exact call1_raise_inRange hv (by simp) h1 h2

/-- Witness for C2 on the two-segment table at the boundary input 1 and
the interior input 3/2. -/
theorem claim_C2_witness :
    selector tbl2 1 = 1 ∧ selector tbl2 (3 / 2) = 2 ∧
    call1 idE tbl2 (3 / 2) 0 "raise" = .ok (some 3) := by
  have hv : validTable tbl2 = true := by
    norm_num [validTable, checkPieces, tbl2]
  have hb := ((claim_C2 idE tbl2 1 hv).2.2.1 0 (by norm_num [tbl2])).2
    (by norm_num [tbl2, nthSeg, defaultSeg])
  have hm := ((claim_C2 idE tbl2 (3 / 2) hv).2.2.1 1 (by norm_num [tbl2])).2
    (by norm_num [tbl2, nthSeg, defaultSeg])
  have hc := (claim_C2 idE tbl2 (3 / 2) hv).2.2.2
    (by norm_num [tbl2, minT]) (by norm_num [tbl2, maxT])
  refine ⟨hb, hm, ?_⟩
  rw [hc, hm]
  norm_num [tbl2, nthSeg, segVal, polyval, polyder, idE]

/-- Claim C5: under the `"raise"` policy (valid table, derivative guard
not triggered) evaluation fails with the out-of-range error exactly when
some input lies strictly below the first minimum or strictly above the
last maximum (boundary values are in range), and the error carries
exactly the under-range and the over-range offending inputs. -/
theorem claim_C5 (E : ℚ → ℚ) (t : List Seg) (Ts : List ℚ) (d : ℕ)
    (hv : validTable t = true)
    (hg : ¬(3 < d ∧ t.any (fun s => s.ec.isSome) = true)) :
    ∀ uo oo, callPGPF E t Ts d "raise" = .error (.outOfRange uo oo) ↔
      ((∃ T ∈ Ts, T < minT t ∨ maxT t < T) ∧
        uo = toOpt (Ts.filter (fun T => decide (T < minT t))) ∧
        oo = toOpt (Ts.filter (fun T => decide (maxT t < T)))) := by
  have hu : ∀ T, underB t T = decide (T < minT t) := fun T => by
    unfold underB
    exact decide_eq_decide.2 (selector_eq_zero_iff hv T)
  have ho : ∀ T, overB t T = decide (maxT t < T) := fun T => by
    unfold overB
    apply decide_eq_decide.2
    have hle := selector_le t T
    rw [← selector_eq_top_iff hv T]
    omega
  intro uo oo
  unfold callPGPF
  rw [if_neg (by decide), if_neg hg]
  by_cases hb : Ts.any (fun T => underB t T || overB t T) = true
  · rw [if_pos ⟨rfl, hb⟩]
    have hex : ∃ T ∈ Ts, T < minT t ∨ maxT t < T := by
      rw [List.any_eq_true] at hb
      obtain ⟨T, hT, hor⟩ := hb
      refine ⟨T, hT, ?_⟩
      rcases Bool.or_eq_true_iff.1 hor with h | h
      · rw [hu T] at h
        exact Or.inl (of_decide_eq_true h)
      · rw [ho T] at h
        exact Or.inr (of_decide_eq_true h)
    have hfu : Ts.filter (underB t) =
        Ts.filter (fun T => decide (T < minT t)) :=
      List.filter_congr (fun T _ => hu T)
    have hfo : Ts.filter (overB t) =
        Ts.filter (fun T => decide (maxT t < T)) :=
      List.filter_congr (fun T _ => ho T)
    simp only [Except.error.injEq, CallErr.outOfRange.injEq, hfu, hfo]
    constructor
    · rintro ⟨h1, h2⟩
      exact ⟨hex, h1.symm, h2.symm⟩
    · rintro ⟨-, h1, h2⟩
      exact ⟨h1.symm, h2.symm⟩
  · rw [if_neg (by rintro ⟨-, hc⟩; exact hb hc)]
    constructor
    · intro h
      simp at h
    · rintro ⟨⟨T, hT, hor⟩, -, -⟩
      exfalso
      apply hb
      rw [List.any_eq_true]
      refine ⟨T, hT, ?_⟩
      rw [Bool.or_eq_true_iff]
      rcases hor with h | h
      · rw [hu T]
        exact Or.inl (decide_eq_true h)
      · rw [ho T]
        exact Or.inr (decide_eq_true h)

/-- Witness for C5: one under-range and one over-range input on the
two-segment table. -/
theorem claim_C5_witness :
    callPGPF idE tbl2 [-1, 1, 5] 0 "raise" =
      .error (.outOfRange (some [-1]) (some [5])) := by
  have hv : validTable tbl2 = true := by
    norm_num [validTable, checkPieces, tbl2]
  have h := (claim_C5 idE tbl2 [-1, 1, 5] 0 hv (by simp)
      (some [-1]) (some [5])).2
  rw [h]
  refine ⟨⟨-1, by norm_num, Or.inl (by norm_num [tbl2, minT])⟩, ?_, ?_⟩ <;>
    norm_num [tbl2, minT, maxT, toOpt, List.filter]

/-- Claim C1: whenever `inverse` returns a temperature, the residual of
the returned temperature is within `Vtol` (so a returned value is never
out of tolerance); when it fails, the domain error occurs only if
`brentq` reported that the bracket endpoints do not bracket a sign
change, and the convergence error only if `brentq` produced a root whose
residual check failed. -/
theorem claim_C1 (E : ℚ → ℚ) (t : List Seg) (nO : ℚ → Option ℚ)
    (bO : Except Bool ℚ) (V : ℚ) (Tstart : Option ℚ) (Vtol : ℚ) :
    (∀ T, inverse E t nO bO V Tstart Vtol = .ok T →
        ∃ x, call1 E t T 0 "nan" = .ok (some x) ∧ |x - V| ≤ Vtol) ∧
    (inverse E t nO bO V Tstart Vtol = .error .domain → bO = .error true) ∧
    (inverse E t nO bO V Tstart Vtol = .error .convergence →
        ∃ T, bO = .ok T ∧ residOkNan E t V Vtol T = false) := by
  refine ⟨?_, ?_, ?_⟩
  · intro T h
    rcases inverse_cases E t nO bO V Tstart Vtol with ⟨T2, he, hr⟩ | he
    · have hTT : T2 = T := Except.ok.inj (he.symm.trans h)
      subst hTT
      obtain ⟨x, hx, hres⟩ := residOkRaise_spec hr
      exact ⟨x, call1_raise_to_nan hx, hres⟩
    · rw [he] at h
      obtain ⟨-, hnan⟩ := brentqStage_ok h
      exact residOkNan_spec hnan
  · intro h
    rcases inverse_cases E t nO bO V Tstart Vtol with ⟨T2, he, -⟩ | he
    · exact absurd (he.symm.trans h) (by simp)
    · exact brentqStage_domain (he.symm.trans h)
  · intro h
    rcases inverse_cases E t nO bO V Tstart Vtol with ⟨T2, he, -⟩ | he
    · exact absurd (he.symm.trans h) (by simp)
    · exact brentqStage_convergence (he.symm.trans h)

/-- Witness for C1: a concrete run that returns a temperature, whose
residual is indeed within tolerance. -/
theorem claim_C1_witness :
    ∃ x, call1 idE tbl1 3 0 "nan" = .ok (some x) ∧
      |x - 3| ≤ 1 / 1000000 :=
  (claim_C1 idE tbl1 nO1 (.error false) 3 none (1 / 1000000)).1 3
    (by norm_num [inverse, brentqStage, residOkRaise, call1, callPGPF,
      chooseOut, selector, selAux, minT, maxT, underB, overB, segVal,
      polyval, polyder, nthSeg, tbl1, idE, nO1, Except.map, List.headI])

/-- Claim C6: cold-junction compensation identity, exactly in real
arithmetic: for in-range `T`, `X` (and the in-range 0-reference),
`emf_mVC T (Tref = X)` equals `emf_mVC T (Tref = 0)` minus
`emf_mVC X (Tref = 0)`, because the forward EMF is
`Evaluate(T) - Evaluate(Tref)`. -/
theorem claim_C6 (E : ℚ → ℚ) (t : List Seg) (T X : ℚ)
    (hv : validTable t = true)
    (hT1 : minT t ≤ T) (hT2 : T ≤ maxT t)
    (hX1 : minT t ≤ X) (hX2 : X ≤ maxT t)
    (h01 : minT t ≤ 0) (h02 : (0 : ℚ) ≤ maxT t) :
    ∃ a b c : ℚ,
      emf_mVC E t T X 0 "raise" = .ok (some a) ∧
      emf_mVC E t T 0 0 "raise" = .ok (some b) ∧
      emf_mVC E t X 0 0 "raise" = .ok (some c) ∧
      a = b - c := by
  have hg : ¬(3 < 0 ∧ t.any (fun s => s.ec.isSome) = true) := by simp
  have hcT := @call1_raise_inRange E t T 0 hv hg hT1 hT2
  have hcX := @call1_raise_inRange E t X 0 hv hg hX1 hX2
  have hc0 := @call1_raise_inRange E t 0 0 hv hg h01 h02
  refine ⟨segVal E (nthSeg t (selector t T - 1)) 0 T -
      segVal E (nthSeg t (selector t X - 1)) 0 X,
    segVal E (nthSeg t (selector t T - 1)) 0 T -
      segVal E (nthSeg t (selector t 0 - 1)) 0 0,
    segVal E (nthSeg t (selector t X - 1)) 0 X -
      segVal E (nthSeg t (selector t 0 - 1)) 0 0,
    ?_, ?_, ?_, by ring⟩
  · unfold emf_mVC
    rw [hcT, hcX]
    simp [osub]
  · unfold emf_mVC
    rw [hcT, hc0]
    simp [osub]
  · unfold emf_mVC
    rw [hcX, hc0]
    simp [osub]

/-- Witness for C6 on the two-segment identity-like table. -/
theorem claim_C6_witness :
    ∃ a b c : ℚ,
      emf_mVC idE tbl2 (3 / 2) 1 0 "raise" = .ok (some a) ∧
      emf_mVC idE tbl2 (3 / 2) 0 0 "raise" = .ok (some b) ∧
      emf_mVC idE tbl2 1 0 0 "raise" = .ok (some c) ∧
      a = b - c := by
  refine claim_C6 idE tbl2 (3 / 2) 1 ?_ ?_ ?_ ?_ ?_ ?_ ?_ <;>
    norm_num [validTable, checkPieces, tbl2, minT, maxT]

/-- Claim C7: for derivative orders 1..3, each unit's forward-EMF method
returns the underlying evaluation at the unit-converted temperature
scaled by the conversion multiplier to the power of the derivative
order (for Celsius the multiplier is 1), and the result is independent
of the reference temperature. -/
theorem claim_C7 (E : ℚ → ℚ) (t : List Seg) (T Tref Tref2 : ℚ) (d : ℕ)
    (policy : String) (h1 : 1 ≤ d) (h3 : d ≤ 3) :
    (emf_mVC E t T Tref d policy =
        (call1 E t (T * (Tunits_mat_from "C").1 + (Tunits_mat_from "C").2)
            d policy).map
          (Option.map (fun x => x * (Tunits_mat_from "C").1 ^ d)) ∧
      emf_mVF E t T Tref d policy =
        (call1 E t (T * (Tunits_mat_from "F").1 + (Tunits_mat_from "F").2)
            d policy).map
          (Option.map (fun x => x * (Tunits_mat_from "F").1 ^ d)) ∧
      emf_mVK E t T Tref d policy =
        (call1 E t (T * (Tunits_mat_from "K").1 + (Tunits_mat_from "K").2)
            d policy).map
          (Option.map (fun x => x * (Tunits_mat_from "K").1 ^ d)) ∧
      emf_mVR E t T Tref d policy =
        (call1 E t (T * (Tunits_mat_from "R").1 + (Tunits_mat_from "R").2)
            d policy).map
          (Option.map (fun x => x * (Tunits_mat_from "R").1 ^ d))) ∧
    (emf_mVC E t T Tref d policy = emf_mVC E t T Tref2 d policy ∧
      emf_mVF E t T Tref d policy = emf_mVF E t T Tref2 d policy ∧
      emf_mVK E t T Tref d policy = emf_mVK E t T Tref2 d policy ∧
      emf_mVR E t T Tref d policy = emf_mVR E t T Tref2 d policy) := by
  have hd0 : d ≠ 0 := by omega
  refine ⟨⟨?_, ?_, ?_, ?_⟩, ?_, ?_, ?_, ?_⟩
  · unfold emf_mVC
    simp only [Tunits_mat_from, mul_one, add_zero, one_pow]
    cases hc : call1 E t T d policy with
    | error e => rfl
    | ok f =>
        dsimp only
        rw [if_pos hd0]
        cases f <;> rfl
  · unfold emf_mVF
    dsimp only
    cases hc : call1 E t
        (T * (Tunits_mat_from "F").1 + (Tunits_mat_from "F").2) d policy with
    | error e => rfl
    | ok f => dsimp only; rw [if_pos hd0]; rfl
  · unfold emf_mVK
    dsimp only
    cases hc : call1 E t
        (T * (Tunits_mat_from "K").1 + (Tunits_mat_from "K").2) d policy with
    | error e => rfl
    | ok f => dsimp only; rw [if_pos hd0]; rfl
  · unfold emf_mVR
    dsimp only
    cases hc : call1 E t
        (T * (Tunits_mat_from "R").1 + (Tunits_mat_from "R").2) d policy with
    | error e => rfl
    | ok f => dsimp only; rw [if_pos hd0]; rfl
  · unfold emf_mVC
    cases hc : call1 E t T d policy with
    | error e => rfl
    | ok f => dsimp only; rw [if_pos hd0, if_pos hd0]
  · unfold emf_mVF
    dsimp only
    cases hc : call1 E t
        (T * (Tunits_mat_from "F").1 + (Tunits_mat_from "F").2) d policy with
    | error e => rfl
    | ok f => dsimp only; rw [if_pos hd0, if_pos hd0]
  · unfold emf_mVK
    dsimp only
    cases hc : call1 E t
        (T * (Tunits_mat_from "K").1 + (Tunits_mat_from "K").2) d policy with
    | error e => rfl
    | ok f => dsimp only; rw [if_pos hd0, if_pos hd0]
  · unfold emf_mVR
    dsimp only
    cases hc : call1 E t
        (T * (Tunits_mat_from "R").1 + (Tunits_mat_from "R").2) d policy with
    | error e => rfl
    | ok f => dsimp only; rw [if_pos hd0, if_pos hd0]

/-- Witness for C7 at derivative order 1 on the Fahrenheit method. -/
theorem claim_C7_witness :
    emf_mVF idE tbl1 212 0 1 "raise" =
      (call1 idE tbl1 (212 * (Tunits_mat_from "F").1 +
          (Tunits_mat_from "F").2) 1 "raise").map
        (Option.map (fun x => x * (Tunits_mat_from "F").1 ^ 1)) ∧
    emf_mVF idE tbl1 212 0 1 "raise" = emf_mVF idE tbl1 212 99 1 "raise" := by
  have h := claim_C7 idE tbl1 212 0 99 1 "raise" (by norm_num) (by norm_num)
  exact ⟨h.1.2.1, h.2.2.1⟩

/-- Claim C4 concerns a code bug: in `inverse_CmV` the Celsius unit
conversion lines are commented out (function_types.py lines 453-454,
459-460) but line 456 still reads
`if Tstart != None: Tstart = Tstart*mul + add`, where `mul` and `add`
are unbound names.  Hence providing an explicit start guess to the
Celsius inverse raises `NameError`, contradicting the specified
behaviour of forwarding the guess to the root-finder; the same call
without a guess succeeds, and the Fahrenheit method converts and
forwards the guess correctly (the oracle here only answers when seeded
at the converted guess 5, proving the guess reaches the root-finder). -/
theorem claim_C4 :
    inverse_CmV idE tbl1 nO1 (.error false) 3 0 (some 41) (1 / 1000000) =
      .error .nameError ∧
    inverse_CmV idE tbl1 nO1 (.error false) 3 0 none (1 / 1000000) =
      .ok 3 ∧
    inverse_FmV idE tbl1 nO1 (.error false) 3 32 (some 41) (1 / 1000000) =
      .ok (187 / 5) := by
  refine ⟨?_, ?_, ?_⟩ <;>
    norm_num [inverse_CmV, inverse_FmV, inverse, brentqStage, residOkRaise,
      Tunits_mat_from, Tunits_mat_to, call1, callPGPF, chooseOut, selector,
      selAux, minT, maxT, underB, overB, segVal, polyval, polyder, nthSeg,
      tbl1, idE, nO1, Except.map, List.headI]
